import Mathlib

/-!
# Verification of the WLAN monitor (`src/wlan_fin.py`)

A shallow embedding of the discovery / reconciliation / persistence core of
`wlan_fin.py`, together with theorems checking the specification's claims
against it.

Modelling conventions:

* Python `dict`s are modelled as insertion-ordered association lists
  (`List (String × α)`); assignment `d[k] = v` replaces the value in place
  when the key is present and appends otherwise (`dictInsert`), lookup takes
  the first matching key (`dictGet`).  Real Python dicts have unique keys,
  the submodel on which both semantics agree.
* JSON state-file contents are modelled by the value type `JValue`
  (strings, objects, null) — the only shapes this program ever writes or
  migrates.  `json.dump`/`json.load` round-tripping of these values is a
  property of the JSON library, not of this program, and is modelled as
  identity: a file holds a parsed `JValue`, a missing or unparseable file is
  `none`.
* Wall-clock timestamps (`datetime.now()` and its formattings) enter every
  function as explicit string parameters.
* The filesystem is a map from path to content (`String → Option _`);
  `Path` values are modelled by their file-name strings (all paths used by
  the program live in one directory).
-/

namespace WlanMonitor

/-- JSON values as this program uses them: strings, objects and `null`. -/
inductive JValue where
  | str (s : String)
  | obj (fields : List (String × JValue))
  | null

/-- Python dict lookup `d[k]` / `d.get(k)` on an association list:
first entry whose key matches. -/
def dictGet {α : Type} (l : List (String × α)) (k : String) : Option α :=
  match l with
  | [] => none
  | (k', v) :: t => if k' = k then some v else dictGet t k

/-- Python `d.get(k, default)`. -/
def dictGetD {α : Type} (l : List (String × α)) (k : String) (d : α) : α :=
  (dictGet l k).getD d

/-- Python `k in d`. -/
def dictHas {α : Type} (l : List (String × α)) (k : String) : Bool :=
  (dictGet l k).isSome

/-- Python dict assignment `d[k] = v`: replace in place if the key exists,
append otherwise. -/
def dictInsert {α : Type} (l : List (String × α)) (k : String) (v : α) :
    List (String × α) :=
  match l with
  | [] => [(k, v)]
  | (k', v') :: t => if k' = k then (k', v) :: t else (k', v') :: dictInsert t k v

/-- The keys of a dict, in insertion order (`d.keys()`). -/
def dictKeys {α : Type} (l : List (String × α)) : List String :=
  l.map Prod.fst

/-- Python truthiness of a `JValue` (`if devices:` etc.). -/
def jTruthy : JValue → Bool
  | .str s => s != ""
  | .obj l => !l.isEmpty
  | .null => false

/-- One device entry as `scan_arp_table` builds it and as the new-format
state file stores it: `{"mac": ..., "last_seen": ...}`. -/
structure Device where
  mac : String
  last_seen : String
deriving DecidableEq, Repr

/-- JSON encoding of one device value. -/
def encodeDevice (d : Device) : JValue :=
  .obj [("mac", .str d.mac), ("last_seen", .str d.last_seen)]

/-- JSON encoding of a device set `{ip: {"mac":…, "last_seen":…}}`. -/
def encodeDevices (devs : List (String × Device)) : JValue :=
  .obj (devs.map fun p => (p.1, encodeDevice p.2))

/-- Decoder for a new-format `"devices"` object; the comparison side of the
round-trip claim ("equals `D` key-for-key and value-for-value"). -/
def decodeDevice (v : JValue) : Option Device :=
  match v with
  | .obj o =>
    match dictGet o "mac", dictGet o "last_seen" with
    | some (.str m), some (.str t) => some ⟨m, t⟩
    | _, _ => none
  | _ => none

/-- Decoder for the whole `"devices"` mapping. -/
def decodeDevices (v : JValue) : Option (List (String × Device)) :=
  match v with
  | .obj l => go l
  | _ => none
where
  go : List (String × JValue) → Option (List (String × Device))
    | [] => some []
    | (ip, dv) :: t =>
      match decodeDevice dv, go t with
      | some d, some r => some ((ip, d) :: r)
      | _, _ => none

/-! ## State store (`load_state` / `save_state`, lines 274–313) -/

/-- The fallback snapshot `{"devices": {}, "last_scan": None}` returned by
`load_state` for a missing/unreadable file and on any internal exception. -/
def emptySnapshot : JValue :=
  .obj [("devices", .obj []), ("last_scan", .null)]

/-- Detection of the legacy MAC-keyed schema (line 284): the `devices`
mapping is non-empty, its first value is a dict, and that dict has an
`"ip"` key. -/
def isLegacyShape (d : List (String × JValue)) : Bool :=
  match d with
  | [] => false
  | (_, .obj o) :: _ => dictHas o "ip"
  | _ => false

/-- The migration loop of `load_state` (lines 286–291): rebuild the mapping
keyed by each entry's `"ip"` field, carrying the old MAC key as `"mac"` and
the entry's `"last_seen"` (defaulting to `now`).  Entries whose `"ip"` is
falsy are skipped.  `none` models the exception path: a non-dict entry value
(`info.get` raises `AttributeError`) or a truthy non-string `"ip"` used as a
dict key (`TypeError`); `load_state` then falls back to `emptySnapshot`. -/
def migrateGo (now : String) :
    List (String × JValue) → List (String × JValue) →
    Option (List (String × JValue))
  | [], acc => some acc
  | (mac, info) :: t, acc =>
    match info with
    | .obj o =>
      match dictGet o "ip" with
      | some (.str ip) =>
        if ip = "" then migrateGo now t acc
        else
          migrateGo now t (dictInsert acc ip
            (.obj [("mac", .str mac), ("last_seen", dictGetD o "last_seen" (.str now))]))
      | some (.obj oo) => if oo.isEmpty then migrateGo now t acc else none
      | some .null => migrateGo now t acc
      | none => migrateGo now t acc
    | _ => none

/-- `load_state`'s legacy migration, starting from an empty new mapping. -/
def migrateLegacy (d : List (String × JValue)) (now : String) :
    Option (List (String × JValue)) :=
  migrateGo now d []

/-- `load_state(path)` (lines 274–296).  `file` is the parsed state file:
`none` for a missing or unparseable file.  `now` is `datetime.now()`'s
ISO string (used only as the migration's `last_seen` default).

The returned value is the raw parsed data (Python returns the `json.load`
result itself), with `"devices"` replaced by the migrated mapping when the
legacy shape is detected; any exception inside the `try` yields
`emptySnapshot`.  A present `"devices"` value that is truthy but not a dict
makes `list(devices.values())` raise, hence `emptySnapshot`; a falsy one is
returned untouched. -/
def load_state (file : Option JValue) (now : String) : JValue :=
  match file with
  | none => emptySnapshot
  | some (.obj kvs) =>
    match dictGet kvs "devices" with
    | some (.obj d) =>
      if isLegacyShape d then
        match migrateLegacy d now with
        | some nd => .obj (dictInsert kvs "devices" (.obj nd))
        | none => emptySnapshot
      else .obj kvs
    | some v => if jTruthy v then emptySnapshot else .obj kvs
    | none => .obj kvs
  | some (.str s) =>
    -- `"devices" in data` on a string is a substring test; if it holds,
    -- `data["devices"]` raises (→ fallback), otherwise the string itself
    -- is returned.
    if "devices".toList <:+: s.toList then emptySnapshot else .str s
  | some .null => emptySnapshot

/-- An update of a path-indexed store (file write / delete). -/
def fsUpdate {α : Type} (fs : String → Option α) (p : String) (v : Option α) :
    String → Option α :=
  fun q => if q = p then v else fs q

/-- The full JSON snapshot `save_state` serializes (lines 302–305):
`{"devices": …, "last_scan": now}`. -/
def stateData (devices : List (String × Device)) (now : String) : JValue :=
  .obj [("devices", encodeDevices devices), ("last_scan", .str now)]

/-- `path.with_suffix(path.suffix + ".tmp")` (line 307): appends `".tmp"`
after the existing suffix, i.e. appends to the whole name. -/
def tmpPath (path : String) : String := path ++ ".tmp"

/-- Which I/O fault, if any, a `save_state` call runs into.  `writeFail`
models an exception while opening/serializing into the temporary file,
which may leave arbitrary partial content (`tempContent`) there;
`replaceFail` models `Path.replace` failing after a complete write. -/
inductive SaveOutcome where
  | ok
  | writeFail (tempContent : Option JValue)
  | replaceFail

/-- `save_state(path, devices)` (lines 299–313): serialize the snapshot to
`path + ".tmp"`, then atomically rename it over `path`; `False` on any
exception.  Returns the result flag and the filesystem afterwards. -/
def save_state (fs : String → Option JValue) (path : String)
    (devices : List (String × Device)) (now : String) (outcome : SaveOutcome) :
    Bool × (String → Option JValue) :=
  let data := stateData devices now
  let temp := tmpPath path
  match outcome with
  | .ok =>
    -- write temp fully, then replace: target gets the data, temp disappears
    let fs1 := fsUpdate fs temp (some data)
    (true, fsUpdate (fsUpdate fs1 path (some data)) temp none)
  | .writeFail t => (false, fsUpdate fs temp t)
  | .replaceFail => (false, fsUpdate fs temp (some data))


/-! ## C6: `save_state` atomicity -/

theorem tmpPath_ne (path : String) : tmpPath path ≠ path := by
  intro h
  have hlen := congrArg String.length h
  rw [tmpPath, String.length_append] at hlen
  have h4 : String.length ".tmp" = 4 := rfl
  omega

/-- C6: `save_state` returns `True` exactly when the snapshot was fully
written and the target path replaced (`outcome = ok`, after which the
target holds the complete new snapshot), and `False` on any I/O error, in
which case the previously persisted file at the target path is unchanged —
partial writes only ever touch the temporary path. -/
theorem save_state_atomic (fs : String → Option JValue) (path : String)
    (devices : List (String × Device)) (now : String) (outcome : SaveOutcome) :
    ((save_state fs path devices now outcome).1 = true ↔ outcome = .ok) ∧
    ((save_state fs path devices now outcome).1 = true →
      (save_state fs path devices now outcome).2 path = some (stateData devices now)) ∧
    ((save_state fs path devices now outcome).1 = false →
      (save_state fs path devices now outcome).2 path = fs path) := by
  have hne : path ≠ tmpPath path := fun h => tmpPath_ne path h.symm
  cases outcome <;> simp [save_state, fsUpdate, hne]

/-- Witness for `save_state_atomic`: a successful save leaves the snapshot
at the target, and a failed replace leaves the (absent) target untouched. -/
theorem save_state_atomic_witness :
    ((save_state (fun _ => none) "wlan_status.json"
        [("192.168.1.7", ⟨"AA:BB:CC:DD:EE:FF", "T1"⟩)] "T2" .ok).2 "wlan_status.json"
      = some (stateData [("192.168.1.7", ⟨"AA:BB:CC:DD:EE:FF", "T1"⟩)] "T2")) ∧
    ((save_state (fun _ => none) "wlan_status.json"
        [("192.168.1.7", ⟨"AA:BB:CC:DD:EE:FF", "T1"⟩)] "T2" .replaceFail).2 "wlan_status.json"
      = none) :=
  ⟨(save_state_atomic (fun _ => none) "wlan_status.json"
      [("192.168.1.7", ⟨"AA:BB:CC:DD:EE:FF", "T1"⟩)] "T2" .ok).2.1 rfl,
   (save_state_atomic (fun _ => none) "wlan_status.json"
      [("192.168.1.7", ⟨"AA:BB:CC:DD:EE:FF", "T1"⟩)] "T2" .replaceFail).2.2 rfl⟩

/-! ## C2: save / load round-trip -/

/-- `decodeDevices` inverts `encodeDevices`. -/
theorem decode_encode_devices (D : List (String × Device)) :
    decodeDevices (encodeDevices D) = some D := by
  induction D with
  | nil => rfl
  | cons hd tl ih =>
    obtain ⟨ip, d⟩ := hd
    simp only [encodeDevices, List.map_cons, decodeDevices, decodeDevices.go] at ih ⊢
    rw [show decodeDevice (encodeDevice d) = some d by
      simp [decodeDevice, encodeDevice, dictGet]]
    rw [ih]

/-- C2: for every non-empty device set `D`, saving it with `save_state`
(successfully) and loading the same path with `load_state` yields exactly
the snapshot `{"devices": D, "last_seen": now}`, whose devices object
decodes back to `D` key-for-key and value-for-value; in particular the
legacy-migration branch does not fire on new-format data. -/
theorem save_load_roundtrip (fs : String → Option JValue) (path : String)
    (D : List (String × Device)) (now1 now2 : String) (hD : D ≠ []) :
    load_state ((save_state fs path D now1 .ok).2 path) now2
        = .obj [("devices", encodeDevices D), ("last_scan", .str now1)] ∧
    decodeDevices (encodeDevices D) = some D := by
  have hne : path ≠ tmpPath path := fun h => tmpPath_ne path h.symm
  have hsaved : (save_state fs path D now1 .ok).2 path = some (stateData D now1) := by
    simp [save_state, fsUpdate, hne]
  rw [hsaved]
  refine ⟨?_, decode_encode_devices D⟩
  obtain ⟨⟨ip, d⟩, tl, rfl⟩ : ∃ hd tl, D = hd :: tl := by
    cases D with
    | nil => exact absurd rfl hD
    | cons hd tl => exact ⟨hd, tl, rfl⟩
  simp [stateData, load_state, encodeDevices, encodeDevice, dictGet,
    isLegacyShape, dictHas]

/-- Witness for `save_load_roundtrip` at a concrete one-device set. -/
theorem save_load_roundtrip_witness :
    load_state ((save_state (fun _ => none) "wlan_status.json"
        [("10.0.0.5", ⟨"AA:BB:CC:DD:EE:FF", "T0"⟩)] "T1" .ok).2 "wlan_status.json") "T2"
      = .obj [("devices", encodeDevices [("10.0.0.5", ⟨"AA:BB:CC:DD:EE:FF", "T0"⟩)]),
              ("last_scan", .str "T1")] ∧
    decodeDevices (encodeDevices [("10.0.0.5", ⟨"AA:BB:CC:DD:EE:FF", "T0"⟩)])
      = some [("10.0.0.5", ⟨"AA:BB:CC:DD:EE:FF", "T0"⟩)] :=
  save_load_roundtrip (fun _ => none) "wlan_status.json"
    [("10.0.0.5", ⟨"AA:BB:CC:DD:EE:FF", "T0"⟩)] "T1" "T2" (by decide)

/-! ## C3: legacy-schema migration in `load_state` -/

theorem dictInsert_mem {α : Type} {l : List (String × α)} {k a : String} {v b : α}
    (h : (a, b) ∈ dictInsert l k v) : (a, b) ∈ l ∨ (a = k ∧ b = v) := by
  induction l with
  | nil =>
    simp only [dictInsert, List.mem_singleton, Prod.mk.injEq] at h
    exact Or.inr h
  | cons hd tl ih =>
    obtain ⟨k', v'⟩ := hd
    rw [dictInsert] at h
    by_cases hk : k' = k
    · rw [if_pos hk] at h
      rcases List.mem_cons.mp h with h | h
      · obtain ⟨h1, h2⟩ := Prod.mk.injEq .. ▸ h
        exact Or.inr ⟨h1.trans hk, h2⟩
      · exact Or.inl (List.mem_cons_of_mem _ h)
    · rw [if_neg hk] at h
      rcases List.mem_cons.mp h with h | h
      · exact Or.inl (List.mem_cons.mpr (Or.inl h))
      · rcases ih h with h | h
        · exact Or.inl (List.mem_cons_of_mem _ h)
        · exact Or.inr h

theorem dictInsert_key_self {α : Type} (l : List (String × α)) (k : String) (v : α) :
    k ∈ dictKeys (dictInsert l k v) := by
  induction l with
  | nil => simp [dictInsert, dictKeys]
  | cons hd tl ih =>
    obtain ⟨k', v'⟩ := hd
    rw [dictInsert]
    by_cases hk : k' = k
    · rw [if_pos hk]
      simp [dictKeys, hk]
    · rw [if_neg hk]
      simp only [dictKeys, List.map_cons, List.mem_cons] at ih ⊢
      exact Or.inr ih

theorem dictInsert_keys_mono {α : Type} {l : List (String × α)} {a : String}
    (k : String) (v : α) (h : a ∈ dictKeys l) : a ∈ dictKeys (dictInsert l k v) := by
  induction l with
  | nil => simp [dictKeys] at h
  | cons hd tl ih =>
    obtain ⟨k', v'⟩ := hd
    rw [dictInsert]
    by_cases hk : k' = k
    · rw [if_pos hk]
      simpa [dictKeys] using h
    · rw [if_neg hk]
      simp only [dictKeys, List.map_cons, List.mem_cons] at h ih ⊢
      rcases h with h | h
      · exact Or.inl h
      · exact Or.inr (ih h)

/-- A well-formed legacy device entry: MAC key, dict value with a non-empty
string `"ip"` field and a `"last_seen"` field (of any JSON shape). -/
def LegacyWF (p : String × JValue) : Prop :=
  ∃ o ip t, p.2 = JValue.obj o ∧ dictGet o "ip" = some (.str ip) ∧ ip ≠ "" ∧
    dictGet o "last_seen" = some t

theorem migrateGo_total (now : String) (entries : List (String × JValue)) :
    ∀ acc, (∀ p ∈ entries, LegacyWF p) →
      ∃ nd, migrateGo now entries acc = some nd := by
  induction entries with
  | nil => exact fun acc _ => ⟨acc, rfl⟩
  | cons hd tl ih =>
    intro acc hwf
    obtain ⟨mac, info⟩ := hd
    obtain ⟨o, ip, t, ho, hip, hne, -⟩ := hwf _ (List.mem_cons_self ..)
    simp only at ho
    subst ho
    rw [migrateGo]
    simp only [hip, if_neg hne]
    exact ih _ fun p hp => hwf p (List.mem_cons_of_mem _ hp)

theorem migrateGo_mem (now : String) (entries : List (String × JValue)) :
    ∀ acc nd, migrateGo now entries acc = some nd →
      ∀ ip v, (ip, v) ∈ nd → (ip, v) ∈ acc ∨
        ∃ mac o, (mac, JValue.obj o) ∈ entries ∧ dictGet o "ip" = some (.str ip) ∧
          v = .obj [("mac", .str mac),
                    ("last_seen", dictGetD o "last_seen" (.str now))] := by
  induction entries with
  | nil =>
    intro acc nd h ip v hmem
    rw [migrateGo] at h
    cases h
    exact Or.inl hmem
  | cons hd tl ih =>
    intro acc nd h ip v hmem
    obtain ⟨mac, info⟩ := hd
    have lift :
        ((ip, v) ∈ acc ∨
          ∃ mac' o', (mac', JValue.obj o') ∈ tl ∧
            dictGet o' "ip" = some (.str ip) ∧
            v = .obj [("mac", .str mac'),
                      ("last_seen", dictGetD o' "last_seen" (.str now))]) →
        ((ip, v) ∈ acc ∨
          ∃ mac' o', (mac', JValue.obj o') ∈ (mac, info) :: tl ∧
            dictGet o' "ip" = some (.str ip) ∧
            v = .obj [("mac", .str mac'),
                      ("last_seen", dictGetD o' "last_seen" (.str now))]) := by
      rintro (h' | ⟨mac', o', hm, h1, h2⟩)
      · exact Or.inl h'
      · exact Or.inr ⟨mac', o', List.mem_cons_of_mem _ hm, h1, h2⟩
    cases info with
    | obj o =>
      rw [migrateGo] at h
      cases hip : dictGet o "ip" with
      | none =>
        simp only [hip] at h
        exact lift (ih _ _ h ip v hmem)
      | some w =>
        cases w with
        | str s =>
          simp only [hip] at h
          by_cases hs : s = ""
          · rw [if_pos hs] at h
            exact lift (ih _ _ h ip v hmem)
          · rw [if_neg hs] at h
            rcases ih _ _ h ip v hmem with hacc | htl
            · rcases dictInsert_mem hacc with hacc | ⟨rfl, rfl⟩
              · exact Or.inl hacc
              · exact Or.inr ⟨mac, o, List.mem_cons_self .., hip, rfl⟩
            · exact lift (Or.inr htl)
        | obj oo =>
          simp only [hip] at h
          by_cases hoo : oo.isEmpty
          · rw [if_pos hoo] at h
            exact lift (ih _ _ h ip v hmem)
          · rw [if_neg hoo] at h
            cases h
        | null =>
          simp only [hip] at h
          exact lift (ih _ _ h ip v hmem)
    | str s => simp [migrateGo] at h
    | null => simp [migrateGo] at h

theorem migrateGo_keys_sub (now : String) (entries : List (String × JValue)) :
    ∀ acc nd, migrateGo now entries acc = some nd →
      ∀ a, a ∈ dictKeys acc → a ∈ dictKeys nd := by
  induction entries with
  | nil =>
    intro acc nd h a ha
    rw [migrateGo] at h
    cases h
    exact ha
  | cons hd tl ih =>
    intro acc nd h a ha
    obtain ⟨mac, info⟩ := hd
    cases info with
    | obj o =>
      rw [migrateGo] at h
      cases hip : dictGet o "ip" with
      | none =>
        simp only [hip] at h
        exact ih _ _ h a ha
      | some w =>
        cases w with
        | str s =>
          simp only [hip] at h
          by_cases hs : s = ""
          · rw [if_pos hs] at h
            exact ih _ _ h a ha
          · rw [if_neg hs] at h
            exact ih _ _ h a (dictInsert_keys_mono _ _ ha)
        | obj oo =>
          simp only [hip] at h
          by_cases hoo : oo.isEmpty
          · rw [if_pos hoo] at h
            exact ih _ _ h a ha
          · rw [if_neg hoo] at h
            cases h
        | null =>
          simp only [hip] at h
          exact ih _ _ h a ha
    | str s => simp [migrateGo] at h
    | null => simp [migrateGo] at h

theorem migrateGo_covers (now : String) (entries : List (String × JValue)) :
    ∀ acc nd, migrateGo now entries acc = some nd →
      ∀ mac o ip, (mac, JValue.obj o) ∈ entries →
        dictGet o "ip" = some (.str ip) → ip ≠ "" → ip ∈ dictKeys nd := by
  induction entries with
  | nil => intro _ _ _ _ _ _ hmem; cases hmem
  | cons hd tl ih =>
    intro acc nd h mac o ip hmem hip hipne
    obtain ⟨mac', info'⟩ := hd
    rcases List.mem_cons.mp hmem with heq | htl
    · obtain ⟨h1, h2⟩ := Prod.mk.injEq .. ▸ heq
      subst h1
      subst h2
      rw [migrateGo] at h
      simp only [hip, if_neg hipne] at h
      exact migrateGo_keys_sub now tl _ _ h ip (dictInsert_key_self ..)
    · cases info' with
      | obj o' =>
        rw [migrateGo] at h
        cases hip' : dictGet o' "ip" with
        | none =>
          simp only [hip'] at h
          exact ih _ _ h mac o ip htl hip hipne
        | some w =>
          cases w with
          | str s =>
            simp only [hip'] at h
            by_cases hs : s = ""
            · rw [if_pos hs] at h
              exact ih _ _ h mac o ip htl hip hipne
            · rw [if_neg hs] at h
              exact ih _ _ h mac o ip htl hip hipne
          | obj oo =>
            simp only [hip'] at h
            by_cases hoo : oo.isEmpty
            · rw [if_pos hoo] at h
              exact ih _ _ h mac o ip htl hip hipne
            · rw [if_neg hoo] at h
              cases h
          | null =>
            simp only [hip'] at h
            exact ih _ _ h mac o ip htl hip hipne
      | str s => simp [migrateGo] at h
      | null => simp [migrateGo] at h

/-- C3: loading a legacy MAC-keyed snapshot (every entry a dict with a
non-empty string `"ip"` and a `"last_seen"`) returns the data with its
`"devices"` mapping re-keyed by IP: every entry of the result carries a
former MAC key as its `"mac"` and that entry's original `"last_seen"`, and
every legacy entry's IP occurs as a key of the result. -/
theorem load_state_legacy_migration (now : String) (kvs d : List (String × JValue))
    (hdev : dictGet kvs "devices" = some (.obj d)) (hne : d ≠ [])
    (hwf : ∀ p ∈ d, LegacyWF p) :
    ∃ nd, migrateLegacy d now = some nd ∧
      load_state (some (.obj kvs)) now = .obj (dictInsert kvs "devices" (.obj nd)) ∧
      (∀ ip v, (ip, v) ∈ nd → ∃ mac o t, (mac, JValue.obj o) ∈ d ∧
          dictGet o "ip" = some (.str ip) ∧ dictGet o "last_seen" = some t ∧
          v = .obj [("mac", .str mac), ("last_seen", t)]) ∧
      (∀ mac o ip, (mac, JValue.obj o) ∈ d → dictGet o "ip" = some (.str ip) →
          ip ∈ dictKeys nd) := by
  obtain ⟨nd, hnd⟩ := migrateGo_total now d [] hwf
  have hleg : migrateLegacy d now = some nd := hnd
  refine ⟨nd, hleg, ?_, ?_, ?_⟩
  · have hshape : isLegacyShape d = true := by
      cases d with
      | nil => exact absurd rfl hne
      | cons p t =>
        obtain ⟨o, ip, tt, ho, hip, -, -⟩ := hwf p (List.mem_cons_self ..)
        obtain ⟨pk, pv⟩ := p
        simp only at ho
        subst ho
        simp [isLegacyShape, dictHas, hip]
    simp only [load_state, hdev, hshape, if_true, hleg]
  · intro ip v hmem
    rcases migrateGo_mem now d [] nd hnd ip v hmem with h0 | ⟨mac, o, hm, hip, hv⟩
    · cases h0
    · obtain ⟨o', ip', t, ho, hip', hipne, hlast⟩ := hwf _ hm
      simp only at ho
      injection ho with ho'
      subst ho'
      refine ⟨mac, o, t, hm, hip, hlast, ?_⟩
      rw [hv, dictGetD, hlast]
      rfl
  · intro mac o ip hm hip
    obtain ⟨o', ip', t, ho, hip', hipne, -⟩ := hwf _ hm
    simp only at ho
    injection ho with ho'
    subst ho'
    rw [hip'] at hip
    injection hip with hip
    injection hip with hip
    subst hip
    exact migrateGo_covers now d [] nd hnd mac o ip' hm hip' hipne

/-- Witness for `load_state_legacy_migration`: the spec's own example, the
one-entry legacy snapshot keyed by `AA:BB:CC:DD:EE:FF`. -/
theorem load_state_legacy_migration_witness :
    ∃ nd,
      migrateLegacy
          [("AA:BB:CC:DD:EE:FF",
            JValue.obj [("ip", .str "10.0.0.5"), ("last_seen", .str "T")])] "N"
        = some nd ∧
      load_state
          (some (.obj [("devices",
              JValue.obj [("AA:BB:CC:DD:EE:FF",
                JValue.obj [("ip", .str "10.0.0.5"), ("last_seen", .str "T")])]),
            ("last_scan", .null)])) "N"
        = .obj (dictInsert
            [("devices",
              JValue.obj [("AA:BB:CC:DD:EE:FF",
                JValue.obj [("ip", .str "10.0.0.5"), ("last_seen", .str "T")])]),
             ("last_scan", .null)] "devices" (.obj nd)) ∧
      (∀ ip v, (ip, v) ∈ nd →
        ∃ mac o t,
          (mac, JValue.obj o) ∈
            [("AA:BB:CC:DD:EE:FF",
              JValue.obj [("ip", .str "10.0.0.5"), ("last_seen", .str "T")])] ∧
          dictGet o "ip" = some (.str ip) ∧ dictGet o "last_seen" = some t ∧
          v = .obj [("mac", .str mac), ("last_seen", t)]) ∧
      (∀ mac o ip,
        (mac, JValue.obj o) ∈
          [("AA:BB:CC:DD:EE:FF",
            JValue.obj [("ip", .str "10.0.0.5"), ("last_seen", .str "T")])] →
        dictGet o "ip" = some (.str ip) → ip ∈ dictKeys nd) :=
  load_state_legacy_migration "N"
    [("devices",
      JValue.obj [("AA:BB:CC:DD:EE:FF",
        JValue.obj [("ip", .str "10.0.0.5"), ("last_seen", .str "T")])]),
     ("last_scan", .null)]
    [("AA:BB:CC:DD:EE:FF",
      JValue.obj [("ip", .str "10.0.0.5"), ("last_seen", .str "T")])]
    rfl (by simp)
    (by
      intro p hp
      rw [List.mem_singleton] at hp
      subst hp
      exact ⟨[("ip", .str "10.0.0.5"), ("last_seen", .str "T")], "10.0.0.5",
        .str "T", rfl, rfl, by decide, rfl⟩)

/-! ## C1: reconciliation is IP-key-membership only -/

theorem dictGet_mem_keys {α : Type} {l : List (String × α)} {k : String} {v : α}
    (h : dictGet l k = some v) : k ∈ dictKeys l := by
  induction l with
  | nil => rw [dictGet] at h; cases h
  | cons hd tl ih =>
    obtain ⟨k', v'⟩ := hd
    rw [dictGet] at h
    by_cases hk : k' = k
    · simp [dictKeys, hk]
    · rw [if_neg hk] at h
      simp only [dictKeys, List.map_cons, List.mem_cons]
      exact Or.inr (ih h)

/-- The reconciliation step of `run_monitor` (lines 422–424 and the loop
headers at 427/433): `prev_ips = set(prev_devices.keys())`,
`curr_ips = set(current.keys())`, events for `curr_ips - prev_ips`
(VERBUNDEN/joined) and `prev_ips - curr_ips` (GETRENNT/left).  `prev`
values are raw JSON (they come from `load_state`), `curr` values are
`scan_arp_table` devices; neither is consulted. -/
def reconcile (prev : List (String × JValue)) (curr : List (String × Device)) :
    Finset String × Finset String :=
  let prev_ips := (dictKeys prev).toFinset
  let curr_ips := (dictKeys curr).toFinset
  (curr_ips \ prev_ips, prev_ips \ curr_ips)

/-- C1: a cycle classifies as joined exactly the IPs keyed in `curr` but
not in `prev`, and as left exactly those keyed in `prev` but not in
`curr`; comparison is key membership only, so an IP present in both —
whatever the two stored devices hold, e.g. different link addresses —
yields neither event. -/
theorem reconcile_ip_membership (prev : List (String × JValue))
    (curr : List (String × Device)) (ip : String) :
    (ip ∈ (reconcile prev curr).1 ↔ ip ∈ dictKeys curr ∧ ip ∉ dictKeys prev) ∧
    (ip ∈ (reconcile prev curr).2 ↔ ip ∈ dictKeys prev ∧ ip ∉ dictKeys curr) ∧
    (∀ dPrev dCurr, dictGet prev ip = some dPrev → dictGet curr ip = some dCurr →
      ip ∉ (reconcile prev curr).1 ∧ ip ∉ (reconcile prev curr).2) := by
  refine ⟨by simp [reconcile], by simp [reconcile], ?_⟩
  intro dPrev dCurr hPrev hCurr
  have h1 := dictGet_mem_keys hPrev
  have h2 := dictGet_mem_keys hCurr
  simp [reconcile, h1, h2]

/-- Witness for `reconcile_ip_membership`: an IP present in both scans
whose link address changed (`AA:…` to `BB:…`) produces no event. -/
theorem reconcile_ip_membership_witness :
    "192.168.1.5" ∉ (reconcile
        [("192.168.1.5", JValue.obj [("mac", .str "AA:AA:AA:AA:AA:AA"),
                                     ("last_seen", .str "T0")])]
        [("192.168.1.5", ⟨"BB:BB:BB:BB:BB:BB", "T1"⟩)]).1 ∧
    "192.168.1.5" ∉ (reconcile
        [("192.168.1.5", JValue.obj [("mac", .str "AA:AA:AA:AA:AA:AA"),
                                     ("last_seen", .str "T0")])]
        [("192.168.1.5", ⟨"BB:BB:BB:BB:BB:BB", "T1"⟩)]).2 :=
  (reconcile_ip_membership
      [("192.168.1.5", JValue.obj [("mac", .str "AA:AA:AA:AA:AA:AA"),
                                   ("last_seen", .str "T0")])]
      [("192.168.1.5", ⟨"BB:BB:BB:BB:BB:BB", "T1"⟩)]
      "192.168.1.5").2.2 _ _ rfl rfl

/-! ## C7: consecutive save-failure tracking in the scan loop -/

/-- `max_consecutive_errors` (line 414). -/
def max_consecutive_errors : Nat := 10

/-- One cycle's error accounting in `run_monitor` (lines 439–442, 457–465):
a failed `save_state` increments `consecutive_errors`, a successful one
resets it to 0; afterwards, reaching the threshold emits one warning and
resets the counter to 0.  The function is total: the loop continues in
every case.  Returns the counter carried to the next cycle and whether
this cycle emitted the warning. -/
def cycleErrors (consecutive_errors : Nat) (saveOk : Bool) : Nat × Bool :=
  let c := if saveOk then 0 else consecutive_errors + 1
  if max_consecutive_errors ≤ c then (0, true) else (c, false)

/-- `n` consecutive cycles whose `save_state` fails, starting from counter
`c`: final counter and total number of warnings emitted. -/
def runFailCycles (c : Nat) : Nat → Nat × Nat
  | 0 => (c, 0)
  | n + 1 =>
    let s := cycleErrors c false
    let r := runFailCycles s.1 n
    (r.1, (if s.2 then 1 else 0) + r.2)

/-- C7: from a fresh counter, 10 consecutive save failures emit exactly one
warning and leave the counter reset to zero; any shorter failure run emits
none and just counts; every successful save resets the counter to zero
without a warning. -/
theorem save_failure_warning :
    runFailCycles 0 max_consecutive_errors = (0, 1) ∧
    (∀ n, n < max_consecutive_errors → runFailCycles 0 n = (n, 0)) ∧
    (∀ c, cycleErrors c true = (0, false)) :=
  ⟨by decide, by decide, fun c => rfl⟩

/-- Witness for `save_failure_warning`: three failures warn nothing and
leave the counter at 3; a success from counter 7 resets it. -/
theorem save_failure_warning_witness :
    runFailCycles 0 3 = (3, 0) ∧ cycleErrors 7 true = (0, false) :=
  ⟨save_failure_warning.2.1 3 (by decide), save_failure_warning.2.2 7⟩

/-! ## C10: `normalize_subnet` -/

/-- Python `str.split(sep)` for a one-character separator. -/
def splitOnCh (sep : Char) : List Char → List (List Char)
  | [] => [[]]
  | c :: t =>
    let r := splitOnCh sep t
    if c = sep then [] :: r
    else
      match r with
      | [] => [[c]]
      | h :: tl => (c :: h) :: tl

/-- `if "/" in subnet: subnet = subnet.split("/")[0]` (lines 360–361):
the prefix before the first `/`. -/
def stripCidr (cs : List Char) : List Char :=
  if cs.contains '/' then cs.takeWhile (· != '/') else cs

/-- `normalize_subnet` (lines 354–371).  `not subnet` catches `None` and
the empty string before any splitting. -/
def normalize_subnet (subnet : Option String) : Option String :=
  match subnet with
  | none => none
  | some s =>
    if s = "" then none
    else
      let cs := stripCidr s.toList
      let parts := splitOnCh '.' cs
      if 3 ≤ parts.length then some ⟨List.intercalate ['.'] (parts.take 3)⟩
      else if parts.length = 1 then some ⟨cs⟩
      else none

/-- C10 counterexample: `""` splits into a single part, but
`normalize_subnet` returns `None` for it (the `if not subnet` guard fires
before the part count), not the single-part input unchanged. -/
theorem normalize_subnet_empty_counterexample :
    (splitOnCh '.' "".toList).length = 1 ∧ normalize_subnet (some "") ≠ some "" :=
  ⟨rfl, by decide⟩

/-- C10 (amended): `normalize_subnet` maps a missing or empty input to
`None`; otherwise, counting the dot-separated parts of the input after
stripping a `/`-suffixed CIDR notation: exactly two parts yield `None`, a
single part is returned (as stripped) unchanged, and three or more parts
yield the first three joined by dots. -/
theorem normalize_subnet_cases :
    normalize_subnet none = none ∧
    normalize_subnet (some "") = none ∧
    ∀ s : String, s ≠ "" →
      ((splitOnCh '.' (stripCidr s.toList)).length = 2 →
        normalize_subnet (some s) = none) ∧
      ((splitOnCh '.' (stripCidr s.toList)).length = 1 →
        normalize_subnet (some s) = some ⟨stripCidr s.toList⟩) ∧
      (3 ≤ (splitOnCh '.' (stripCidr s.toList)).length →
        normalize_subnet (some s) = some ⟨List.intercalate ['.']
          ((splitOnCh '.' (stripCidr s.toList)).take 3)⟩) := by
  refine ⟨rfl, rfl, ?_⟩
  intro s hs
  refine ⟨?_, ?_, ?_⟩ <;> intro h <;> simp only [String.toList] at h <;>
    simp [normalize_subnet, hs, h]

/-- Witness for `normalize_subnet_cases`: two parts (`"10.0"`) give `None`,
one part (`"192"`) is returned unchanged, a CIDR four-part input keeps its
first three octets. -/
theorem normalize_subnet_cases_witness :
    normalize_subnet (some "10.0") = none ∧
    normalize_subnet (some "192") = some ⟨stripCidr "192".toList⟩ ∧
    normalize_subnet (some "10.1.2.3/24") = some ⟨List.intercalate ['.']
      ((splitOnCh '.' (stripCidr "10.1.2.3/24".toList)).take 3)⟩ :=
  ⟨(normalize_subnet_cases.2.2 "10.0" (by decide)).1 (by decide),
   (normalize_subnet_cases.2.2 "192" (by decide)).2.1 (by decide),
   (normalize_subnet_cases.2.2 "10.1.2.3/24" (by decide)).2.2 (by decide)⟩

/-! ## C8: log rotation in `append_log` / `rotate_log_file` -/

/-- The index of the last `'.'` in a file name, if any. -/
def lastDotIdx (cs : List Char) : Option Nat :=
  match cs.reverse.findIdx? (· == '.') with
  | some j => some (cs.length - 1 - j)
  | none => none

/-- `Path.stem` / `Path.suffix` on a file name, CPython semantics: the
suffix starts at the last dot when that dot is neither the first nor the
last character; otherwise the suffix is empty. -/
def splitStemSuffix (name : String) : String × String :=
  let cs := name.toList
  match lastDotIdx cs with
  | some i =>
    if 0 < i ∧ i < cs.length - 1 then (⟨cs.take i⟩, ⟨cs.drop i⟩) else (name, "")
  | none => (name, "")

/-- The rotation target `f"{log_path.stem}_{timestamp}{log_path.suffix}"`
(line 264). -/
def backupName (logPath ts : String) : String :=
  (splitStemSuffix logPath).1 ++ "_" ++ ts ++ (splitStemSuffix logPath).2

theorem splitStemSuffix_append (name : String) :
    (splitStemSuffix name).1 ++ (splitStemSuffix name).2 = name := by
  cases hdot : lastDotIdx name.toList with
  | none =>
    simp only [splitStemSuffix, hdot]
    exact String.append_empty name
  | some i =>
    by_cases hi : 0 < i ∧ i < name.toList.length - 1
    · simp only [splitStemSuffix, hdot, hi, and_self, if_true]
      show (⟨name.toList.take i ++ name.toList.drop i⟩ : String) = name
      rw [List.take_append_drop]
      rfl
    · simp only [splitStemSuffix, hdot, hi, if_false]
      exact String.append_empty name

theorem backupName_ne (logPath ts : String) : backupName logPath ts ≠ logPath := by
  intro h
  have hlen := congrArg String.length h
  have happ := congrArg String.length (splitStemSuffix_append logPath)
  rw [backupName, String.length_append, String.length_append,
    String.length_append] at hlen
  rw [String.length_append] at happ
  have h1 : String.length "_" = 1 := rfl
  omega

/-- `st_size` of a file: its UTF-8 byte count. -/
def fileSize (content : String) : Nat := content.utf8ByteSize

/-- `rotate_log_file` (lines 252–271): nothing to do when the log is
absent or below `maxKb` KB; otherwise rename it to the timestamp-suffixed
backup (content moves, original path disappears). -/
def rotate_log_file (fs : String → Option String) (logPath : String)
    (maxKb : Nat) (ts : String) : String → Option String :=
  match fs logPath with
  | none => fs
  | some content =>
    if maxKb * 1024 ≤ fileSize content then
      fsUpdate (fsUpdate fs (backupName logPath ts) (some content)) logPath none
    else fs

/-- The log line of `append_log` (lines 322–324):
`[ts] EVENT: IP=ip MAC=mac`, with a falsy or `"UNKNOWN"` mac rendered as
`UNKNOWN`. -/
def logLine (tsLine event ip : String) (mac : Option String) : String :=
  let mac_str := match mac with
    | some m => if m != "" && m != "UNKNOWN" then m else "UNKNOWN"
    | none => "UNKNOWN"
  "[" ++ tsLine ++ "] " ++ event ++ ": IP=" ++ ip ++ " MAC=" ++ mac_str ++ "\n"

/-- `append_log` (lines 316–331): rotate if needed, then append one line to
the log file (mode `"a"` creates it when missing).  The database write and
console print touch no file and are outside this model. -/
def append_log (fs : String → Option String) (logPath : String) (maxKb : Nat)
    (tsRot tsLine event ip : String) (mac : Option String) :
    String → Option String :=
  let fs1 := rotate_log_file fs logPath maxKb tsRot
  fsUpdate fs1 logPath (some ((fs1 logPath).getD "" ++ logLine tsLine event ip mac))

/-- C8: when the log file is at/above the `maxKb` KB threshold, the next
`append_log` renames it to the timestamp-suffixed backup (a distinct path,
content preserved) and starts a fresh log holding only the new entry; below
the threshold it appends to the file and renames nothing — every other path
is untouched. -/
theorem append_log_rotates (fs : String → Option String) (logPath : String)
    (maxKb : Nat) (tsRot tsLine event ip : String) (mac : Option String)
    (content : String) (hfile : fs logPath = some content) :
    (maxKb * 1024 ≤ fileSize content →
      backupName logPath tsRot ≠ logPath ∧
      append_log fs logPath maxKb tsRot tsLine event ip mac
          (backupName logPath tsRot) = some content ∧
      append_log fs logPath maxKb tsRot tsLine event ip mac logPath
          = some (logLine tsLine event ip mac)) ∧
    (fileSize content < maxKb * 1024 →
      append_log fs logPath maxKb tsRot tsLine event ip mac logPath
          = some (content ++ logLine tsLine event ip mac) ∧
      ∀ p, p ≠ logPath →
        append_log fs logPath maxKb tsRot tsLine event ip mac p = fs p) := by
  have hbne := backupName_ne logPath tsRot
  constructor
  · intro h
    refine ⟨hbne, ?_, ?_⟩
    · simp [append_log, rotate_log_file, hfile, if_pos h, fsUpdate, hbne]
    · simp [append_log, rotate_log_file, hfile, if_pos h, fsUpdate]
  · intro h
    have h' : ¬ maxKb * 1024 ≤ fileSize content := by omega
    constructor
    · simp [append_log, rotate_log_file, hfile, if_neg h', fsUpdate]
    · intro p hp
      simp [append_log, rotate_log_file, hfile, if_neg h', fsUpdate, hp]

/-- Witness for `append_log_rotates`: with threshold 0 every non-empty log
rotates (old content lands at the backup path); with the default 500 KB
threshold a 3-byte log is appended to in place. -/
theorem append_log_rotates_witness :
    append_log (fun p => if p = "log.txt" then some "old" else none)
        "log.txt" 0 "TS" "TL" "VERBUNDEN" "10.0.0.1" none
        (backupName "log.txt" "TS") = some "old" ∧
    append_log (fun p => if p = "log.txt" then some "old" else none)
        "log.txt" 500 "TS" "TL" "VERBUNDEN" "10.0.0.1" none
        "log.txt" = some ("old" ++ logLine "TL" "VERBUNDEN" "10.0.0.1" none) :=
  ⟨((append_log_rotates (fun p => if p = "log.txt" then some "old" else none)
      "log.txt" 0 "TS" "TL" "VERBUNDEN" "10.0.0.1" none "old" rfl).1
      (by decide)).2.1,
   ((append_log_rotates (fun p => if p = "log.txt" then some "old" else none)
      "log.txt" 500 "TS" "TL" "VERBUNDEN" "10.0.0.1" none "old" rfl).2
      (by decide)).1⟩

/-! ## C5 / C9: `scan_arp_table` and its extraction pattern

The pattern of line 206,
`(\d{1,3}\.\d{1,3}\.\d{1,3}\.\d{1,3})\s+([0-9a-fA-F\-:]{17})\s+`,
is compiled by hand into a matcher.  The character classes are modelled
over ASCII (`arp -a` output is ASCII; Python's `\d`/`\s` would also accept
some non-ASCII characters, which no claim involves).  Since a digit is
never a dot or whitespace, the greedy `\d{1,3}` with backtracking is
equivalent to the maximal leading digit run of length 1–3, and since the
address class and whitespace are disjoint, `\s+` is equivalent to the
maximal non-empty whitespace run. -/

theorem length_takeWhile_le (p : Char → Bool) (l : List Char) :
    (l.takeWhile p).length ≤ l.length := by
  induction l with
  | nil => simp [List.takeWhile]
  | cons a t ih =>
    simp only [List.takeWhile]
    split
    · simpa using Nat.succ_le_succ ih
    · exact Nat.zero_le _

/-- `\d`, restricted to ASCII. -/
def isDigitCh (c : Char) : Bool := c.isDigit

/-- `\s`, restricted to ASCII: space, tab, newline, carriage return,
vertical tab, form feed. -/
def isWsCh (c : Char) : Bool :=
  c == ' ' || c == '\t' || c == '\n' || c == '\r' ||
  c == Char.ofNat 11 || c == Char.ofNat 12

/-- The link-address class `[0-9a-fA-F\-:]`. -/
def isMacCh (c : Char) : Bool :=
  c.isDigit || (decide ('a' ≤ c) && decide (c ≤ 'f')) ||
  (decide ('A' ≤ c) && decide (c ≤ 'F')) || c == '-' || c == ':'

/-- Greedy `\d{1,3}` whose follower (a dot or whitespace) rejects digits:
the maximal leading digit run, failing when empty or longer than 3. -/
def matchOctet (cs : List Char) : Option (List Char × List Char) :=
  let ds := cs.takeWhile isDigitCh
  if ds.length = 0 ∨ 3 < ds.length then none
  else some (ds, cs.drop ds.length)

/-- A literal `.`. -/
def expectDot : List Char → Option (List Char)
  | c :: rest => if c = '.' then some rest else none
  | [] => none

/-- Greedy `\s+` whose follower rejects whitespace: the maximal non-empty
whitespace run. -/
def matchWsPlus (cs : List Char) : Option (List Char) :=
  let ws := cs.takeWhile isWsCh
  if ws.length = 0 then none else some (cs.drop ws.length)

/-- `[0-9a-fA-F\-:]{17}`: exactly the next 17 characters, all in class. -/
def matchMacTok (cs : List Char) : Option (List Char × List Char) :=
  let tok := cs.take 17
  if tok.length = 17 ∧ tok.all isMacCh then some (tok, cs.drop 17) else none

/-- One attempt of the whole pattern at the current position: on success,
group 1 (the dotted IP), group 2 (the 17-character address token) and the
text after the match (the final greedy `\s+` included, where `finditer`
resumes). -/
def matchPairAt (cs : List Char) : Option (List Char × List Char × List Char) :=
  (matchOctet cs).bind fun p1 =>
  (expectDot p1.2).bind fun r2 =>
  (matchOctet r2).bind fun p2 =>
  (expectDot p2.2).bind fun r4 =>
  (matchOctet r4).bind fun p3 =>
  (expectDot p3.2).bind fun r6 =>
  (matchOctet r6).bind fun p4 =>
  (matchWsPlus p4.2).bind fun r8 =>
  (matchMacTok r8).bind fun pm =>
  (matchWsPlus pm.2).bind fun r10 =>
  some (p1.1 ++ '.' :: p2.1 ++ '.' :: p3.1 ++ '.' :: p4.1, pm.1, r10)

theorem matchOctet_lt {cs : List Char} {p : List Char × List Char}
    (h : matchOctet cs = some p) : p.2.length < cs.length := by
  simp only [matchOctet] at h
  split at h
  · cases h
  · rename_i hcond
    cases h
    have h1 := length_takeWhile_le isDigitCh cs
    simp only [List.length_drop]
    omega

theorem expectDot_lt {cs r : List Char} (h : expectDot cs = some r) :
    r.length < cs.length := by
  cases cs with
  | nil => cases h
  | cons c t =>
    rw [expectDot] at h
    split at h
    · cases h
      simp
    · cases h

theorem matchWsPlus_lt {cs r : List Char} (h : matchWsPlus cs = some r) :
    r.length < cs.length := by
  simp only [matchWsPlus] at h
  split at h
  · cases h
  · rename_i hcond
    cases h
    have h1 := length_takeWhile_le isWsCh cs
    simp only [List.length_drop]
    omega

theorem matchMacTok_lt {cs : List Char} {p : List Char × List Char}
    (h : matchMacTok cs = some p) : p.2.length < cs.length := by
  simp only [matchMacTok] at h
  split at h
  · rename_i hcond
    cases h
    have h1 : (cs.take 17).length = 17 := hcond.1
    rw [List.length_take] at h1
    simp only [List.length_drop]
    omega
  · cases h

theorem matchMacTok_spec {cs : List Char} {p : List Char × List Char}
    (h : matchMacTok cs = some p) : p.1.length = 17 ∧ p.1.all isMacCh := by
  simp only [matchMacTok] at h
  split at h
  · rename_i hcond
    cases h
    exact hcond
  · cases h

theorem matchPairAt_rest_lt {cs : List Char}
    {p : List Char × List Char × List Char}
    (h : matchPairAt cs = some p) : p.2.2.length < cs.length := by
  rw [matchPairAt] at h
  rw [Option.bind_eq_some] at h; obtain ⟨p1, h1, h⟩ := h
  rw [Option.bind_eq_some] at h; obtain ⟨r2, h2, h⟩ := h
  rw [Option.bind_eq_some] at h; obtain ⟨p2, h3, h⟩ := h
  rw [Option.bind_eq_some] at h; obtain ⟨r4, h4, h⟩ := h
  rw [Option.bind_eq_some] at h; obtain ⟨p3, h5, h⟩ := h
  rw [Option.bind_eq_some] at h; obtain ⟨r6, h6, h⟩ := h
  rw [Option.bind_eq_some] at h; obtain ⟨p4, h7, h⟩ := h
  rw [Option.bind_eq_some] at h; obtain ⟨r8, h8, h⟩ := h
  rw [Option.bind_eq_some] at h; obtain ⟨pm, h9, h⟩ := h
  rw [Option.bind_eq_some] at h; obtain ⟨r10, h10, h⟩ := h
  cases h
  have l1 := matchOctet_lt h1
  have l2 := expectDot_lt h2
  have l3 := matchOctet_lt h3
  have l4 := expectDot_lt h4
  have l5 := matchOctet_lt h5
  have l6 := expectDot_lt h6
  have l7 := matchOctet_lt h7
  have l8 := matchWsPlus_lt h8
  have l9 := matchMacTok_lt h9
  have l10 := matchWsPlus_lt h10
  simp only
  omega

theorem matchPairAt_mac {cs : List Char}
    {p : List Char × List Char × List Char}
    (h : matchPairAt cs = some p) : p.2.1.length = 17 ∧ p.2.1.all isMacCh := by
  rw [matchPairAt] at h
  rw [Option.bind_eq_some] at h; obtain ⟨p1, h1, h⟩ := h
  rw [Option.bind_eq_some] at h; obtain ⟨r2, h2, h⟩ := h
  rw [Option.bind_eq_some] at h; obtain ⟨p2, h3, h⟩ := h
  rw [Option.bind_eq_some] at h; obtain ⟨r4, h4, h⟩ := h
  rw [Option.bind_eq_some] at h; obtain ⟨p3, h5, h⟩ := h
  rw [Option.bind_eq_some] at h; obtain ⟨r6, h6, h⟩ := h
  rw [Option.bind_eq_some] at h; obtain ⟨p4, h7, h⟩ := h
  rw [Option.bind_eq_some] at h; obtain ⟨r8, h8, h⟩ := h
  rw [Option.bind_eq_some] at h; obtain ⟨pm, h9, h⟩ := h
  rw [Option.bind_eq_some] at h; obtain ⟨r10, h10, h⟩ := h
  cases h
  simpa using matchMacTok_spec h9

/-- `re.finditer` over the text: try the pattern at each position, resume
after each match.  The fuel (one unit per position) only serves structural
recursion; `findMatchesF_congr` shows every fuel above the text length
computes the same list. -/
def findMatchesF : Nat → List Char → List (List Char × List Char)
  | 0, _ => []
  | fuel + 1, cs =>
    match matchPairAt cs with
    | some (ip, mac, rest) => (ip, mac) :: findMatchesF fuel rest
    | none =>
      match cs with
      | [] => []
      | _ :: t => findMatchesF fuel t

def findMatches (cs : List Char) : List (List Char × List Char) :=
  findMatchesF (cs.length + 1) cs

theorem findMatchesF_congr : ∀ f1 f2 cs, cs.length < f1 → cs.length < f2 →
    findMatchesF f1 cs = findMatchesF f2 cs := by
  intro f1
  induction f1 with
  | zero => intro f2 cs h1; omega
  | succ f ih =>
    intro f2 cs h1 h2
    cases f2 with
    | zero => omega
    | succ g =>
      cases hm : matchPairAt cs with
      | some trip =>
        obtain ⟨ip, mac, rest⟩ := trip
        have hlt := matchPairAt_rest_lt hm
        simp only at hlt
        simp only [findMatchesF, hm]
        rw [ih g rest (by omega) (by omega)]
      | none =>
        cases cs with
        | nil => simp [findMatchesF, hm]
        | cons c t =>
          simp only [findMatchesF, hm]
          exact ih g t (by simp at h1; omega) (by simp at h2; omega)

theorem findMatchesF_mac : ∀ fuel cs p, p ∈ findMatchesF fuel cs →
    p.2.length = 17 ∧ p.2.all isMacCh := by
  intro fuel
  induction fuel with
  | zero => intro cs p hp; cases hp
  | succ f ih =>
    intro cs p hp
    cases hm : matchPairAt cs with
    | some trip =>
      obtain ⟨ip, mac, rest⟩ := trip
      simp only [findMatchesF, hm] at hp
      rcases List.mem_cons.mp hp with rfl | hp
      · simpa using matchPairAt_mac hm
      · exact ih rest p hp
    | none =>
      cases cs with
      | nil => simp [findMatchesF, hm] at hp
      | cons c t =>
        simp only [findMatchesF, hm] at hp
        exact ih t p hp

/-- `mac_raw = match.group(2).upper().replace("-", ":")` (line 209). -/
def normalizeMac (tok : List Char) : String :=
  ⟨tok.map fun c => if c.toUpper = '-' then ':' else c.toUpper⟩

/-- Python `str.startswith`. -/
def strStartsWith (s pre : String) : Bool :=
  decide (s.toList.take pre.toList.length = pre.toList)

/-- The per-match body of `scan_arp_table`'s loop (lines 207–219): filter
the broadcast address and every `FF:`-prefixed address, then store the
device under its IP.  The `"UNKNOWN"` fallback of line 214 is kept as
written; it requires a matched token whose length differs from 17. -/
def scanStep (now : String) (devices : List (String × Device))
    (m : List Char × List Char) : List (String × Device) :=
  let mac_raw := normalizeMac m.2
  if mac_raw ≠ "FF:FF:FF:FF:FF:FF" ∧ strStartsWith mac_raw "FF:" = false then
    let mac := if mac_raw.length = 17 then mac_raw else "UNKNOWN"
    dictInsert devices ⟨m.1⟩ ⟨mac, now⟩
  else devices

/-- `scan_arp_table` (lines 176–224): run the pattern over the captured
`arp -a` text and fold the matches into an IP-keyed device mapping.
`now` is `datetime.now().isoformat()`. -/
def scan_arp_table (output : String) (now : String) : List (String × Device) :=
  (findMatches output.toList).foldl (scanStep now) []

theorem normalizeMac_length (tok : List Char) :
    (normalizeMac tok).length = tok.length := by
  simp [normalizeMac, String.length]

/-- Every device `scan_arp_table` returns carries a 17-character link
address not prefixed by `FF:`, never the `"UNKNOWN"` sentinel, and the
scan's timestamp. -/
theorem scan_arp_values (output now : String) :
    ∀ ip d, (ip, d) ∈ scan_arp_table output now →
      d.mac.length = 17 ∧ strStartsWith d.mac "FF:" = false ∧
      d.mac ≠ "UNKNOWN" ∧ d.last_seen = now := by
  have key : ∀ (ms : List (List Char × List Char)) (acc : List (String × Device)),
      (∀ m ∈ ms, m.2.length = 17) →
      (∀ ip d, (ip, d) ∈ acc →
        d.mac.length = 17 ∧ strStartsWith d.mac "FF:" = false ∧
        d.mac ≠ "UNKNOWN" ∧ d.last_seen = now) →
      ∀ ip d, (ip, d) ∈ ms.foldl (scanStep now) acc →
        d.mac.length = 17 ∧ strStartsWith d.mac "FF:" = false ∧
        d.mac ≠ "UNKNOWN" ∧ d.last_seen = now := by
    intro ms
    induction ms with
    | nil =>
      intro acc _ hacc ip d h
      exact hacc ip d h
    | cons m tl ih =>
      intro acc hms hacc ip d h
      rw [List.foldl_cons] at h
      refine ih _ (fun m' hm' => hms m' (List.mem_cons_of_mem _ hm')) ?_ ip d h
      intro ip' d' hd'
      rw [scanStep] at hd'
      split at hd'
      · rename_i hcond
        rcases dictInsert_mem hd' with hd' | ⟨-, rfl⟩
        · exact hacc ip' d' hd'
        · have hlen : (normalizeMac m.2).length = 17 := by
            rw [normalizeMac_length]
            exact hms m (List.mem_cons_self ..)
          refine ⟨?_, ?_, ?_, rfl⟩ <;> simp only [if_pos hlen]
          · exact hlen
          · exact hcond.2
          · intro hu
            have := congrArg String.length hu
            rw [hlen] at this
            exact absurd this (by decide)
      · exact hacc ip' d' hd'
  intro ip d h
  refine key (findMatches output.toList) [] ?_ (by intro _ _ h'; cases h') ip d h
  intro m hm
  exact (findMatchesF_mac _ _ m hm).1

/-- C9: an entry whose normalized link address begins with `FF:` is never
stored — no device in any `scan_arp_table` result has an `FF:`-prefixed
address (first universal part), and a neighbor line carrying the valid
non-broadcast address `FF:00:11:22:33:44` is dropped entirely (second,
concrete part). -/
theorem scan_arp_table_ff_filtered :
    (∀ output now ip d, (ip, d) ∈ scan_arp_table output now →
      strStartsWith d.mac "FF:" = false) ∧
    scan_arp_table "10.0.0.1   FF:00:11:22:33:44   eth0\n" "T" = [] :=
  ⟨fun output now ip d h => (scan_arp_values output now ip d h).2.1, by decide⟩

/-- Witness for `scan_arp_table_ff_filtered`: a stored device's address
(from a dashed lowercase neighbor line) does not begin with `FF:`. -/
theorem scan_arp_table_ff_filtered_witness :
    strStartsWith (Device.mac ⟨"00:11:22:33:44:55", "T"⟩) "FF:" = false :=
  scan_arp_table_ff_filtered.1 "10.0.0.1  00-11-22-33-44-55  dynamic\n" "T"
    "10.0.0.1" ⟨"00:11:22:33:44:55", "T"⟩ (by decide)

/-- C5 (evaluating the code at the failing input): a neighbor line whose
link address is malformed — here 16 characters, `00-11-22-33-44-5` — does
not match the extraction pattern at all, so its IP `192.168.1.5` is
discarded rather than kept with an `unknown` address (first part); a
17-character garbage token of class characters is kept verbatim, also not
marked unknown (second part).  Together with `scan_arp_values` (no result
ever carries `"UNKNOWN"`), line 214's `"UNKNOWN"` branch is dead code. -/
theorem scan_arp_table_malformed_mac_drops_ip :
    scan_arp_table "  192.168.1.5     00-11-22-33-44-5     dynamic\n" "T" = [] ∧
    scan_arp_table "  192.168.1.5     :::::::::::::::::     dynamic\n" "T"
      = [("192.168.1.5", ⟨":::::::::::::::::", "T"⟩)] := by
  constructor <;> decide

end WlanMonitor
